import Mathlib

/-
Shallow embedding of the comfyui-graph-utils workflow model
(src/ComfyWorkflow.ts, src/types.ts, src/validators.ts).

A workflow is modelled as an association list from node ids to nodes; the
list order models the JavaScript object enumeration order.  JavaScript
`undefined` (an absent input) is modelled by `Option`.  Numeric literals are
modelled as integers (no claim depends on floating point behaviour).
-/

/-- InputValue from src/types.ts: a literal scalar
    (string | number | boolean | null) or a NodeConnection
    [nodeId, port]. -/
inductive InputValue where
  | str  : String → InputValue
  | num  : Int → InputValue
  | bool : Bool → InputValue
  | null : InputValue
  | conn : String → Nat → InputValue
deriving DecidableEq, Repr

/-- isNodeConnection from src/types.ts: the shape test selecting the
    Connection variant. -/
def isNodeConnection : InputValue → Bool
  | .conn _ _ => true
  | _ => false

/-- ComfyNode from src/types.ts (the display-only `_meta` field is omitted:
    no modelled operation reads it). -/
structure ComfyNode where
  inputs : List (String × InputValue)
  class_type : String
deriving DecidableEq, Repr

/-- ComfyWorkflowJson from src/types.ts: the node-id → node mapping,
    as an association list in enumeration order. -/
abbrev ComfyWorkflowJson := List (String × ComfyNode)

/-- Reading `this.nodes[nodeId]` in src/ComfyWorkflow.ts. -/
def lookupNode (g : ComfyWorkflowJson) (nodeId : String) : Option ComfyNode :=
  (g.find? (fun p => p.1 == nodeId)).map Prod.snd

/-- Reading `node.inputs[name]`. -/
def lookupInput (n : ComfyNode) (name : String) : Option InputValue :=
  (n.inputs.find? (fun p => p.1 == name)).map Prod.snd

/-- A node's input-name list has no duplicates: automatic in JavaScript,
    where `inputs` is an object. -/
def NodeWf (n : ComfyNode) : Prop := (n.inputs.map Prod.fst).Nodup

/-- A workflow's node-id list has no duplicates and every node is
    well-formed: automatic in JavaScript, where the workflow is an object. -/
def WorkflowWf (g : ComfyWorkflowJson) : Prop :=
  (g.map Prod.fst).Nodup ∧ ∀ p ∈ g, NodeWf p.2

instance (n : ComfyNode) : Decidable (NodeWf n) :=
  inferInstanceAs (Decidable ((n.inputs.map Prod.fst).Nodup))

instance (g : ComfyWorkflowJson) : Decidable (WorkflowWf g) :=
  inferInstanceAs (Decidable ((g.map Prod.fst).Nodup ∧ ∀ p ∈ g, NodeWf p.2))

/-- One character of JSON string escaping (only quote and backslash are
    escaped; this is injective on the literal values compared here). -/
def escapeChar (c : Char) : String :=
  if c = '"' then "\\\"" else if c = '\\' then "\\\\" else String.singleton c

/-- JSON string escaping. -/
def escapeString (s : String) : String :=
  String.join (s.data.map escapeChar)

/-- JSON.stringify on an input value. -/
def jsonStringify : InputValue → String
  | .str s => "\"" ++ escapeString s ++ "\""
  | .num n => toString n
  | .bool b => if b then "true" else "false"
  | .null => "null"
  | .conn s p => "[\"" ++ escapeString s ++ "\"," ++ toString p ++ "]"

/-- normalizeConnection from src/ComfyWorkflow.ts: a connection rendered as
    `class_type:port` against the owning graph, or `UNKNOWN:port` when the
    referenced node does not exist. -/
def normalizeConnection (g : ComfyWorkflowJson) (c : String × Nat) : String :=
  match lookupNode g c.1 with
  | none => "UNKNOWN:" ++ toString c.2
  | some n => n.class_type ++ ":" ++ toString c.2

/-- The per-entry encoding used by hashNodeInputs: connections are
    normalized, literals are JSON-stringified. -/
def encodeValue (g : ComfyWorkflowJson) : InputValue → String
  | .conn s p => normalizeConnection g (s, p)
  | v => jsonStringify v

/-- hashNodeInputs from src/ComfyWorkflow.ts: encode every input, sort the
    input names, and join `name:encoded` with `|`. -/
def hashNodeInputs (g : ComfyWorkflowJson) (node : ComfyNode) : String :=
  let sortedKeys := List.insertionSort (· ≤ ·) (node.inputs.map Prod.fst)
  String.intercalate "|"
    (sortedKeys.map (fun k => k ++ ":" ++ ((lookupInput node k).elim "" (encodeValue g))))

/-- Insertion-ordered deduplication, as performed by a JavaScript Set fed
    from a list. -/
def dedupFirst (l : List String) : List String :=
  l.foldl (fun acc s => if s ∈ acc then acc else acc ++ [s]) []

/-- `new Set([...a, ...b])` in enumeration order. -/
def setUnion (a b : List String) : List String := dedupFirst (a ++ b)

/-- StructuralDiffType from src/types.ts. -/
inductive StructuralDiffType where
  | class_type_count_mismatch
  | missing_node_type
  | extra_node_type
  | input_mismatch
  | connection_mismatch
deriving DecidableEq, Repr

/-- The `unknown`-typed expected/actual payload of a StructuralDiff:
    a count, a normalized-connection string, or an input value
    (`.val none` standing for `undefined`). -/
inductive DiffValue where
  | num : Nat → DiffValue
  | str : String → DiffValue
  | val : Option InputValue → DiffValue
deriving DecidableEq, Repr

/-- StructuralDiff from src/types.ts. -/
structure StructuralDiff where
  type : StructuralDiffType
  classType : Option String
  inputName : Option String
  expected : DiffValue
  actual : DiffValue
  details : String
deriving DecidableEq, Repr

/-- The body of compareNodeInputs' loop for one input name. -/
def inputDiff (g : ComfyWorkflowJson) (thisNode : ComfyNode)
    (og : ComfyWorkflowJson) (otherNode : ComfyNode) (inputName : String) :
    List StructuralDiff :=
  match lookupInput thisNode inputName, lookupInput otherNode inputName with
  | some (.conn ts tp), some (.conn bs bp) =>
    let thisNormalized := normalizeConnection g (ts, tp)
    let otherNormalized := normalizeConnection og (bs, bp)
    if thisNormalized ≠ otherNormalized then
      [⟨.connection_mismatch, none, some inputName, .str otherNormalized, .str thisNormalized,
        "Input \"" ++ inputName ++ "\": connection mismatch - expected " ++
          otherNormalized ++ ", got " ++ thisNormalized⟩]
    else []
  | tv, ov =>
    if (tv.elim false isNodeConnection) ≠ (ov.elim false isNodeConnection) then
      [⟨.input_mismatch, none, some inputName, .val ov, .val tv,
        "Input \"" ++ inputName ++ "\": type mismatch - one is connection, other is value"⟩]
    else if tv ≠ ov then
      match tv, ov with
      | none, ov' =>
        [⟨.input_mismatch, none, some inputName, .val ov', .val none,
          "Input \"" ++ inputName ++ "\": missing in this workflow"⟩]
      | some t, none =>
        [⟨.input_mismatch, none, some inputName, .val none, .val (some t),
          "Input \"" ++ inputName ++ "\": extra in this workflow"⟩]
      | some t, some o =>
        [⟨.input_mismatch, none, some inputName, .val (some o), .val (some t),
          "Input \"" ++ inputName ++ "\": expected " ++ jsonStringify o ++
            ", got " ++ jsonStringify t⟩]
    else []

/-- compareNodeInputs from src/ComfyWorkflow.ts: iterate the union of the
    two input-name sets. -/
def compareNodeInputs (g : ComfyWorkflowJson) (thisNode : ComfyNode)
    (og : ComfyWorkflowJson) (otherNode : ComfyNode) : List StructuralDiff :=
  (setUnion (thisNode.inputs.map Prod.fst) (otherNode.inputs.map Prod.fst)).flatMap
    (inputDiff g thisNode og otherNode)

/-- `grouped[classType]` as produced by groupNodesByType: entries of the
    given class, in enumeration order. -/
def nodesOfType (g : ComfyWorkflowJson) (classType : String) :
    List (String × ComfyNode) :=
  g.filter (fun p => p.2.class_type == classType)

/-- The key list of groupNodesByType's result: class tags in first-occurrence
    order. -/
def classTypesOf (g : ComfyWorkflowJson) : List String :=
  dedupFirst (g.map (fun p => p.2.class_type))

/-- Scanning a JavaScript Set of remaining indices for the first entry with
    the given hash and deleting it; `none` when no entry matches. -/
def eraseFirstHash (h : String) :
    List (String × ComfyNode) → Option (List (String × ComfyNode))
  | [] => none
  | q :: qs =>
    if q.1 = h then some qs
    else (eraseFirstHash h qs).map (fun r => q :: r)

/-- The matching loop of findBestNodeMatching: process the subject's
    (hash, node) pairs in order, each taking the first remaining reference
    pair with an equal hash; returns (unmatched subject, unmatched
    reference) in order. -/
def greedyMatch : List (String × ComfyNode) → List (String × ComfyNode) →
    List (String × ComfyNode) × List (String × ComfyNode)
  | [], oths => ([], oths)
  | t :: ts, oths =>
    match eraseFirstHash t.1 oths with
    | some oths' => greedyMatch ts oths'
    | none =>
      let r := greedyMatch ts oths
      (t :: r.1, r.2)

/-- findBestNodeMatching from src/ComfyWorkflow.ts: hash both sides, match
    greedily, and when unmatched nodes remain on both sides compare the
    first unmatched pair only. -/
def findBestNodeMatching (g : ComfyWorkflowJson)
    (thisNodes : List (String × ComfyNode)) (og : ComfyWorkflowJson)
    (otherNodes : List (String × ComfyNode)) : List StructuralDiff :=
  let ths := thisNodes.map (fun p => (hashNodeInputs g p.2, p.2))
  let oths := otherNodes.map (fun p => (hashNodeInputs og p.2, p.2))
  match greedyMatch ths oths with
  | (t :: _, o :: _) => compareNodeInputs g t.2 og o.2
  | _ => []

/-- `{...d, classType}`: stamp the class tag on a diff record. -/
def withClassType (ct : String) (d : StructuralDiff) : StructuralDiff :=
  ⟨d.type, some ct, d.inputName, d.expected, d.actual, d.details⟩

/-- The body of getStructuralDiff's per-class-tag loop. -/
def diffsForClass (g og : ComfyWorkflowJson) (ct : String) :
    List StructuralDiff :=
  let thisNodes := nodesOfType g ct
  let otherNodes := nodesOfType og ct
  if thisNodes.length ≠ otherNodes.length then
    [⟨.class_type_count_mismatch, some ct, none, .num otherNodes.length, .num thisNodes.length,
      ct ++ ": expected " ++ toString otherNodes.length ++ " nodes, got " ++
        toString thisNodes.length⟩]
  else
    match thisNodes, otherNodes with
    | [t], [o] => (compareNodeInputs g t.2 og o.2).map (withClassType ct)
    | t1 :: t2 :: ts, oths =>
      (findBestNodeMatching g (t1 :: t2 :: ts) og oths).map (withClassType ct)
    | _, _ => []

/-- getStructuralDiff from src/ComfyWorkflow.ts. -/
def getStructuralDiff (g og : ComfyWorkflowJson) : List StructuralDiff :=
  (setUnion (classTypesOf g) (classTypesOf og)).flatMap (diffsForClass g og)

/-- isStructurallyEquivalentTo from src/ComfyWorkflow.ts. -/
def isStructurallyEquivalentTo (g og : ComfyWorkflowJson) : Bool :=
  (getStructuralDiff g og).length == 0

/-- The cascade loop's keep-condition: an input survives unless it is a
    connection whose source is the removed id. -/
def keepInput (removedId : String) : InputValue → Bool
  | .conn s _ => s != removedId
  | _ => true

/-- Drop from a node every input whose value is a connection whose source is
    the removed id (the cascade loop of removeNode). -/
def removeConnInputsTo (removedId : String) (n : ComfyNode) : ComfyNode :=
  ⟨n.inputs.filter (fun p => keepInput removedId p.2), n.class_type⟩

/-- removeNode from src/ComfyWorkflow.ts: no-op when absent; otherwise
    detach every connection input referencing the id and delete the node. -/
def removeNode (g : ComfyWorkflowJson) (nodeId : String) : ComfyWorkflowJson :=
  match lookupNode g nodeId with
  | none => g
  | some _ =>
    (g.map (fun p => (p.1, removeConnInputsTo nodeId p.2))).filter
      (fun p => p.1 != nodeId)

/-- ValidationError from src/validators.ts (`severity` rendered as a
    Boolean: true for a warning, false for an error). -/
structure ValidationError where
  nodeId : Option String
  inputName : Option String
  message : String
  isWarning : Bool
deriving DecidableEq, Repr

/-- ValidationResult from src/validators.ts. -/
structure ValidationResult where
  valid : Bool
  errors : List ValidationError
  warnings : List ValidationError
deriving DecidableEq, Repr

/-- The `referencedNodeIds` set of validateConnections, as the list of ids
    added to it: for every connection input, its source id and its owner's
    id. -/
def referencedNodeIds (g : ComfyWorkflowJson) : List String :=
  g.flatMap (fun p => p.2.inputs.flatMap (fun kv =>
    match kv.2 with
    | .conn s _ => [s, p.1]
    | _ => []))

/-- The dangling-reference errors of validateConnections. -/
def connectionErrors (g : ComfyWorkflowJson) : List ValidationError :=
  g.flatMap (fun p => p.2.inputs.flatMap (fun kv =>
    match kv.2 with
    | .conn s _ =>
      if s ∈ g.map Prod.fst then []
      else
        [⟨some p.1, some kv.1,
          "Node \"" ++ p.1 ++ "\" references non-existent node \"" ++ s ++
            "\" in input \"" ++ kv.1 ++ "\"", false⟩]
    | _ => []))

/-- The isolated-node warnings of validateConnections. -/
def isolationWarnings (g : ComfyWorkflowJson) : List ValidationError :=
  (g.map Prod.fst).flatMap (fun nodeId =>
    if nodeId ∈ referencedNodeIds g then []
    else
      [⟨some nodeId, none,
        "Node \"" ++ nodeId ++ "\" is isolated (no incoming or outgoing connections)",
        true⟩])

/-- validateConnections from src/validators.ts. -/
def validateConnections (g : ComfyWorkflowJson) : ValidationResult :=
  let errors := connectionErrors g
  let warnings := isolationWarnings g
  ⟨errors.length == 0, errors, warnings⟩

/-- Apply an id remapping to an input value: only the source id of a
    connection changes. -/
def renameValue (r : String → String) : InputValue → InputValue
  | .conn s p => .conn (r s) p
  | v => v

/-- Apply an id remapping to a node's inputs. -/
def renameNode (r : String → String) (n : ComfyNode) : ComfyNode :=
  ⟨n.inputs.map (fun kv => (kv.1, renameValue r kv.2)), n.class_type⟩

/-- Apply an id remapping to a whole workflow: to its keys and to every
    connection source. -/
def renameWorkflow (r : String → String) (g : ComfyWorkflowJson) :
    ComfyWorkflowJson :=
  g.map (fun p => (r p.1, renameNode r p.2))

/-- Index of the first remaining reference node whose content hash equals the
    given one.  Spec-side formulation for the matching step. -/
def specFirstMatchIdx (h : String) (remaining : List (String × ComfyNode)) :
    Option Nat :=
  remaining.findIdx? (fun q => q.1 == h)

/-- One step of the spec's description of greedy pairing: the subject node
    either consumes the first remaining hash-equal reference node or joins
    the unmatched-subject list. -/
def specGreedyStep (st : List (String × ComfyNode) × List (String × ComfyNode))
    (t : String × ComfyNode) :
    List (String × ComfyNode) × List (String × ComfyNode) :=
  match specFirstMatchIdx t.1 st.2 with
  | some j => (st.1, st.2.eraseIdx j)
  | none => (st.1 ++ [t], st.2)

/-- The spec's description of the pairing pass: subject nodes in original
    order, each greedily taking the first remaining hash-equal reference
    node. -/
def specGreedyPairing (ths oths : List (String × ComfyNode)) :
    List (String × ComfyNode) × List (String × ComfyNode) :=
  ths.foldl specGreedyStep ([], oths)

/-- The spec's description of the multi-node matching outcome: when
    unmatched nodes remain on both sides, node-input-diff runs on exactly
    the first unmatched subject node against the first remaining unmatched
    reference node, and nothing else is emitted. -/
def specMatchingDiffs (g : ComfyWorkflowJson)
    (thisNodes : List (String × ComfyNode)) (og : ComfyWorkflowJson)
    (otherNodes : List (String × ComfyNode)) : List StructuralDiff :=
  let ths := thisNodes.map (fun p => (hashNodeInputs g p.2, p.2))
  let oths := otherNodes.map (fun p => (hashNodeInputs og p.2, p.2))
  match specGreedyPairing ths oths with
  | (t :: _, o :: _) => compareNodeInputs g t.2 og o.2
  | _ => []

/-- The id occurs as the source id of some connection input somewhere in the
    workflow. -/
def occursAsConnSource (g : ComfyWorkflowJson) (i : String) : Bool :=
  g.any (fun p => p.2.inputs.any (fun kv =>
    match kv.2 with
    | .conn s _ => s == i
    | _ => false))

/-- The id identifies a node that itself contains at least one
    connection-valued input. -/
def ownsConnectionInput (g : ComfyWorkflowJson) (i : String) : Bool :=
  g.any (fun p => p.1 == i && p.2.inputs.any (fun kv => isNodeConnection kv.2))

/- ===== Generic list infrastructure ===== -/

theorem mem_dedupFoldl (l acc : List String) (x : String) :
    x ∈ l.foldl (fun acc s => if s ∈ acc then acc else acc ++ [s]) acc ↔
      x ∈ acc ∨ x ∈ l := by
  induction l generalizing acc with
  | nil => simp
  | cons a t ih =>
    simp only [List.foldl_cons]
    by_cases h : a ∈ acc
    · rw [if_pos h, ih]
      constructor
      · rintro (hx | hx)
        · exact Or.inl hx
        · exact Or.inr (List.mem_cons_of_mem _ hx)
      · rintro (hx | hx)
        · exact Or.inl hx
        · rcases List.mem_cons.mp hx with rfl | hx
          · exact Or.inl h
          · exact Or.inr hx
    · rw [if_neg h, ih]
      simp only [List.mem_append, List.mem_singleton, List.mem_cons]
      tauto

theorem nodup_dedupFoldl (l acc : List String) (h : acc.Nodup) :
    (l.foldl (fun acc s => if s ∈ acc then acc else acc ++ [s]) acc).Nodup := by
  induction l generalizing acc with
  | nil => simpa using h
  | cons a t ih =>
    simp only [List.foldl_cons]
    by_cases ha : a ∈ acc
    · rw [if_pos ha]; exact ih acc h
    · rw [if_neg ha]
      refine ih _ ?_
      rw [List.nodup_append]
      refine ⟨h, List.nodup_singleton a, ?_⟩
      intro x hx hxa
      rw [List.mem_singleton] at hxa
      exact ha (hxa ▸ hx)

theorem mem_dedupFirst (l : List String) (x : String) :
    x ∈ dedupFirst l ↔ x ∈ l := by
  unfold dedupFirst; rw [mem_dedupFoldl]; simp

theorem nodup_dedupFirst (l : List String) : (dedupFirst l).Nodup :=
  nodup_dedupFoldl l [] List.nodup_nil

theorem mem_setUnion (a b : List String) (x : String) :
    x ∈ setUnion a b ↔ x ∈ a ∨ x ∈ b := by
  unfold setUnion; rw [mem_dedupFirst, List.mem_append]

theorem nodup_setUnion (a b : List String) : (setUnion a b).Nodup :=
  nodup_dedupFirst _

theorem lookupInput_isSome_iff (n : ComfyNode) (k : String) :
    (lookupInput n k).isSome ↔ k ∈ n.inputs.map Prod.fst := by
  unfold lookupInput
  have hmap : (Option.map Prod.snd (n.inputs.find? (fun p => p.1 == k))).isSome
      = (n.inputs.find? (fun p => p.1 == k)).isSome := by
    cases n.inputs.find? (fun p => p.1 == k) <;> rfl
  rw [hmap, List.find?_isSome]
  simp only [List.mem_map]
  constructor
  · rintro ⟨p, hp, hpk⟩
    exact ⟨p, hp, by simpa using hpk⟩
  · rintro ⟨p, hp, hpk⟩
    exact ⟨p, hp, by simpa using hpk⟩

theorem lookupInput_eq_none_of_not_mem (n : ComfyNode) (k : String)
    (h : k ∉ n.inputs.map Prod.fst) : lookupInput n k = none := by
  have := (lookupInput_isSome_iff n k).not.mpr h
  cases hl : lookupInput n k with
  | none => rfl
  | some v => rw [hl] at this; simp at this

theorem mem_keys_of_lookupInput_eq_some (n : ComfyNode) (k : String)
    (v : InputValue) (h : lookupInput n k = some v) :
    k ∈ n.inputs.map Prod.fst := by
  rw [← lookupInput_isSome_iff, h]; rfl

/- ===== Diff records remember their class tag and input name ===== -/

theorem inputDiff_inputName (g : ComfyWorkflowJson) (t : ComfyNode)
    (og : ComfyWorkflowJson) (o : ComfyNode) (nm : String) (d : StructuralDiff)
    (hd : d ∈ inputDiff g t og o nm) : d.inputName = some nm := by
  unfold inputDiff at hd
  split at hd
  · dsimp only at hd
    split at hd <;> simp_all
  · split at hd
    · simp_all
    · split at hd
      · split at hd <;> simp_all
      · simp_all

theorem diffsForClass_classType (g og : ComfyWorkflowJson) (ct : String)
    (d : StructuralDiff) (hd : d ∈ diffsForClass g og ct) :
    d.classType = some ct := by
  unfold diffsForClass at hd
  dsimp only at hd
  split at hd
  · simp_all
  · split at hd
    · simp only [List.mem_map, withClassType] at hd
      obtain ⟨a, -, rfl⟩ := hd
      rfl
    · simp only [List.mem_map, withClassType] at hd
      obtain ⟨a, -, rfl⟩ := hd
      rfl
    · cases hd

/- ===== Extracting one class's (or one input's) contribution ===== -/

theorem filter_proj_flatMap (proj : StructuralDiff → Option String)
    (l : List String) (f : String → List StructuralDiff)
    (hf : ∀ s, ∀ d ∈ f s, proj d = some s) (hl : l.Nodup) (ct : String)
    (hct : ct ∈ l) :
    ((l.flatMap f).filter (fun d => proj d == some ct)) = f ct := by
  induction l with
  | nil => cases hct
  | cons a t ih =>
    rw [List.flatMap_cons, List.filter_append]
    rcases List.mem_cons.mp hct with rfl | hmem
    · have h1 : (f ct).filter (fun d => proj d == some ct) = f ct := by
        apply List.filter_eq_self.mpr
        intro d hd
        simp [hf ct d hd]
      have h2 : (t.flatMap f).filter (fun d => proj d == some ct) = [] := by
        apply List.filter_eq_nil_iff.mpr
        intro d hd
        rcases List.mem_flatMap.mp hd with ⟨s, hs, hds⟩
        have hps := hf s d hds
        have hne : s ≠ ct := fun h => (List.nodup_cons.mp hl).1 (h ▸ hs)
        simp [hps, hne]
      rw [h1, h2, List.append_nil]
    · have hane : a ≠ ct := fun h => (List.nodup_cons.mp hl).1 (h ▸ hmem)
      have h1 : (f a).filter (fun d => proj d == some ct) = [] := by
        apply List.filter_eq_nil_iff.mpr
        intro d hd
        simp [hf a d hd, hane]
      rw [h1, List.nil_append]
      exact ih (List.nodup_cons.mp hl).2 hmem

/- ===== The greedy matching pass ===== -/

theorem eraseFirstHash_eq_none_iff (h : String)
    (l : List (String × ComfyNode)) :
    eraseFirstHash h l = none ↔ ∀ q ∈ l, q.1 ≠ h := by
  induction l with
  | nil => simp [eraseFirstHash]
  | cons q qs ih =>
    simp only [eraseFirstHash]
    by_cases hq : q.1 = h
    · simp [hq]
    · simp only [if_neg hq, Option.map_eq_none', ih, List.forall_mem_cons]
      tauto

theorem eraseFirstHash_mem (h : String) (l l' : List (String × ComfyNode))
    (he : eraseFirstHash h l = some l') : ∀ x ∈ l', x ∈ l := by
  induction l generalizing l' with
  | nil => simp [eraseFirstHash] at he
  | cons q qs ih =>
    simp only [eraseFirstHash] at he
    by_cases hq : q.1 = h
    · rw [if_pos hq] at he
      cases he
      intro x hx
      exact List.mem_cons_of_mem _ hx
    · rw [if_neg hq] at he
      cases hr : eraseFirstHash h qs with
      | none => rw [hr] at he; cases he
      | some r =>
        rw [hr] at he
        cases he
        intro x hx
        rcases List.mem_cons.mp hx with rfl | hx
        · exact List.mem_cons_self _ _
        · exact List.mem_cons_of_mem _ (ih r hr x hx)

theorem eraseFirstHash_length (h : String) (l l' : List (String × ComfyNode))
    (he : eraseFirstHash h l = some l') : l'.length + 1 = l.length := by
  induction l generalizing l' with
  | nil => simp [eraseFirstHash] at he
  | cons q qs ih =>
    simp only [eraseFirstHash] at he
    by_cases hq : q.1 = h
    · rw [if_pos hq] at he
      cases he
      rfl
    · rw [if_neg hq] at he
      cases hr : eraseFirstHash h qs with
      | none => rw [hr] at he; cases he
      | some r =>
        rw [hr] at he
        cases he
        simp [ih r hr]

theorem eraseFirstHash_map_fst (h : String) (l l' : List (String × ComfyNode))
    (he : eraseFirstHash h l = some l') :
    l'.map Prod.fst = (l.map Prod.fst).erase h := by
  induction l generalizing l' with
  | nil => simp [eraseFirstHash] at he
  | cons q qs ih =>
    simp only [eraseFirstHash] at he
    by_cases hq : q.1 = h
    · rw [if_pos hq] at he
      cases he
      simp [List.erase_cons, hq]
    · rw [if_neg hq] at he
      cases hr : eraseFirstHash h qs with
      | none => rw [hr] at he; cases he
      | some r =>
        rw [hr] at he
        cases he
        simp [List.erase_cons, hq, ih r hr]

theorem eraseFirstHash_isSome (h : String) (l : List (String × ComfyNode))
    (hm : h ∈ l.map Prod.fst) : ∃ l', eraseFirstHash h l = some l' := by
  cases he : eraseFirstHash h l with
  | some l' => exact ⟨l', rfl⟩
  | none =>
    rw [eraseFirstHash_eq_none_iff] at he
    rcases List.mem_map.mp hm with ⟨q, hq, hqh⟩
    exact absurd hqh (he q hq)

theorem greedyMatch_unmatched_sub (ths oths : List (String × ComfyNode)) :
    (∀ t ∈ (greedyMatch ths oths).1, t ∈ ths) ∧
      (∀ o ∈ (greedyMatch ths oths).2, o ∈ oths) := by
  induction ths generalizing oths with
  | nil => simp [greedyMatch]
  | cons t ts ih =>
    simp only [greedyMatch]
    cases he : eraseFirstHash t.1 oths with
    | some oths' =>
      refine ⟨fun x hx => List.mem_cons_of_mem _ ((ih oths').1 x hx),
        fun o ho => eraseFirstHash_mem t.1 oths oths' he o ((ih oths').2 o ho)⟩
    | none =>
      refine ⟨fun x hx => ?_, fun o ho => (ih oths).2 o ho⟩
      rcases List.mem_cons.mp hx with rfl | hx
      · exact List.mem_cons_self _ _
      · exact List.mem_cons_of_mem _ ((ih oths).1 x hx)

theorem greedyMatch_no_cross_hash (ths oths : List (String × ComfyNode)) :
    ∀ t ∈ (greedyMatch ths oths).1, ∀ o ∈ (greedyMatch ths oths).2,
      t.1 ≠ o.1 := by
  induction ths generalizing oths with
  | nil => simp [greedyMatch]
  | cons t ts ih =>
    simp only [greedyMatch]
    cases he : eraseFirstHash t.1 oths with
    | some oths' => exact ih oths'
    | none =>
      intro x hx o ho
      rcases List.mem_cons.mp hx with rfl | hx
      · have hnone := (eraseFirstHash_eq_none_iff x.1 oths).mp he
        have homem : o ∈ oths := (greedyMatch_unmatched_sub ts oths).2 o ho
        exact fun hxo => hnone o homem hxo.symm
      · exact ih oths x hx o ho

theorem greedyMatch_length (ths oths : List (String × ComfyNode)) :
    (greedyMatch ths oths).1.length + oths.length =
      (greedyMatch ths oths).2.length + ths.length := by
  induction ths generalizing oths with
  | nil => simp [greedyMatch]
  | cons t ts ih =>
    simp only [greedyMatch]
    cases he : eraseFirstHash t.1 oths with
    | some oths' =>
      dsimp only
      have hl := eraseFirstHash_length t.1 oths oths' he
      have hih := ih oths'
      simp only [List.length_cons]
      omega
    | none =>
      dsimp only
      have := ih oths
      simp only [List.length_cons]
      omega

theorem greedyMatch_perm_of_full (ths oths : List (String × ComfyNode))
    (hfull : greedyMatch ths oths = ([], [])) :
    (ths.map Prod.fst).Perm (oths.map Prod.fst) := by
  induction ths generalizing oths with
  | nil =>
    simp only [greedyMatch] at hfull
    cases hfull
    simp
  | cons t ts ih =>
    simp only [greedyMatch] at hfull
    cases he : eraseFirstHash t.1 oths with
    | some oths' =>
      rw [he] at hfull
      have hperm := ih oths' hfull
      have hmem : t.1 ∈ oths.map Prod.fst := by
        rcases (eraseFirstHash_eq_none_iff t.1 oths).not.mp (by simp [he]) with h
        push_neg at h
        rcases h with ⟨q, hq, hqh⟩
        exact List.mem_map.mpr ⟨q, hq, hqh⟩
      rw [List.map_cons, List.cons_perm_iff_perm_erase]
      exact ⟨hmem, by rw [← eraseFirstHash_map_fst t.1 oths oths' he]; exact hperm⟩
    | none =>
      rw [he] at hfull
      cases hfull

theorem greedyMatch_full_of_perm (ths oths : List (String × ComfyNode))
    (hperm : (ths.map Prod.fst).Perm (oths.map Prod.fst)) :
    greedyMatch ths oths = ([], []) := by
  induction ths generalizing oths with
  | nil =>
    have : oths.map Prod.fst = [] := List.Perm.eq_nil hperm.symm
    have : oths = [] := List.map_eq_nil_iff.mp this
    simp [greedyMatch, this]
  | cons t ts ih =>
    rw [List.map_cons, List.cons_perm_iff_perm_erase] at hperm
    obtain ⟨hmem, hperm'⟩ := hperm
    obtain ⟨oths', he⟩ := eraseFirstHash_isSome t.1 oths hmem
    simp only [greedyMatch, he]
    apply ih
    rw [eraseFirstHash_map_fst t.1 oths oths' he]
    exact hperm'

/- ===== Cons-shaped lookup lemmas ===== -/

theorem lookupNode_cons (p : String × ComfyNode) (ps : ComfyWorkflowJson)
    (s : String) :
    lookupNode (p :: ps) s = if p.1 = s then some p.2 else lookupNode ps s := by
  by_cases h : p.1 = s
  · unfold lookupNode
    rw [List.find?_cons_of_pos _ (by simp [h]), if_pos h]
    rfl
  · unfold lookupNode
    rw [List.find?_cons_of_neg _ (by simp [h]), if_neg h]

theorem lookupInput_mk_cons (a : String × InputValue)
    (l : List (String × InputValue)) (ct : String) (k : String) :
    lookupInput ⟨a :: l, ct⟩ k =
      if a.1 = k then some a.2 else lookupInput ⟨l, ct⟩ k := by
  by_cases h : a.1 = k
  · unfold lookupInput
    rw [List.find?_cons_of_pos _ (by simp [h]), if_pos h]
    rfl
  · unfold lookupInput
    rw [List.find?_cons_of_neg _ (by simp [h]), if_neg h]

/- ===== Renaming preserves the id-independent views ===== -/

theorem lookupNode_rename (r : String → String) (hr : Function.Injective r)
    (g : ComfyWorkflowJson) (s : String) :
    lookupNode (renameWorkflow r g) (r s) =
      (lookupNode g s).map (renameNode r) := by
  induction g with
  | nil => rfl
  | cons p ps ih =>
    show lookupNode ((r p.1, renameNode r p.2) :: renameWorkflow r ps) (r s) = _
    rw [lookupNode_cons, lookupNode_cons]
    by_cases h : p.1 = s
    · rw [if_pos (by exact congrArg r h), if_pos h]
      rfl
    · rw [if_neg (fun hc => h (hr hc)), if_neg h]
      exact ih

theorem lookupInput_rename (r : String → String) (n : ComfyNode) (k : String) :
    lookupInput (renameNode r n) k = (lookupInput n k).map (renameValue r) := by
  obtain ⟨l, ct⟩ := n
  induction l with
  | nil => rfl
  | cons a l ih =>
    show lookupInput ⟨(a.1, renameValue r a.2) :: _, ct⟩ k = _
    rw [lookupInput_mk_cons, lookupInput_mk_cons]
    by_cases h : a.1 = k
    · rw [if_pos h, if_pos h]
      rfl
    · rw [if_neg h, if_neg h]
      exact ih

theorem normalizeConnection_rename (r : String → String)
    (hr : Function.Injective r) (g : ComfyWorkflowJson) (s : String) (p : Nat) :
    normalizeConnection (renameWorkflow r g) (r s, p) =
      normalizeConnection g (s, p) := by
  unfold normalizeConnection
  dsimp only
  rw [lookupNode_rename r hr g s]
  cases lookupNode g s <;> rfl

theorem encodeValue_rename (r : String → String) (hr : Function.Injective r)
    (g : ComfyWorkflowJson) (v : InputValue) :
    encodeValue (renameWorkflow r g) (renameValue r v) = encodeValue g v := by
  cases v with
  | conn s p => exact normalizeConnection_rename r hr g s p
  | str s => rfl
  | num n => rfl
  | bool b => rfl
  | null => rfl

theorem hashNodeInputs_rename (r : String → String)
    (hr : Function.Injective r) (g : ComfyWorkflowJson) (n : ComfyNode) :
    hashNodeInputs (renameWorkflow r g) (renameNode r n) = hashNodeInputs g n := by
  unfold hashNodeInputs
  dsimp only
  have hkeys : (renameNode r n).inputs.map Prod.fst = n.inputs.map Prod.fst := by
    simp [renameNode]
  rw [hkeys]
  congr 1
  apply List.map_congr_left
  intro k _
  rw [lookupInput_rename]
  cases hv : lookupInput n k with
  | none => rfl
  | some v =>
    show k ++ ":" ++ encodeValue (renameWorkflow r g) (renameValue r v) = _
    rw [encodeValue_rename r hr g v]
    rfl

theorem inputDiff_rename_left (r : String → String)
    (hr : Function.Injective r) (g : ComfyWorkflowJson) (t : ComfyNode)
    (nm : String) :
    inputDiff (renameWorkflow r g) (renameNode r t) g t nm = [] := by
  unfold inputDiff
  rw [lookupInput_rename]
  cases hv : lookupInput t nm with
  | none => simp
  | some v =>
    cases v with
    | conn s p =>
      dsimp only [Option.map_some', renameValue]
      rw [normalizeConnection_rename r hr g s p]
      simp
    | str s => simp [renameValue]
    | num n => simp [renameValue]
    | bool b => simp [renameValue]
    | null => simp [renameValue]

theorem inputDiff_rename_right (r : String → String)
    (hr : Function.Injective r) (g : ComfyWorkflowJson) (t : ComfyNode)
    (nm : String) :
    inputDiff g t (renameWorkflow r g) (renameNode r t) nm = [] := by
  unfold inputDiff
  rw [lookupInput_rename]
  cases hv : lookupInput t nm with
  | none => simp
  | some v =>
    cases v with
    | conn s p =>
      dsimp only [Option.map_some', renameValue]
      rw [normalizeConnection_rename r hr g s p]
      simp
    | str s => simp [renameValue]
    | num n => simp [renameValue]
    | bool b => simp [renameValue]
    | null => simp [renameValue]

theorem compareNodeInputs_rename_left (r : String → String)
    (hr : Function.Injective r) (g : ComfyWorkflowJson) (t : ComfyNode) :
    compareNodeInputs (renameWorkflow r g) (renameNode r t) g t = [] := by
  unfold compareNodeInputs
  exact List.flatMap_eq_nil_iff.mpr (fun nm _ => inputDiff_rename_left r hr g t nm)

theorem compareNodeInputs_rename_right (r : String → String)
    (hr : Function.Injective r) (g : ComfyWorkflowJson) (t : ComfyNode) :
    compareNodeInputs g t (renameWorkflow r g) (renameNode r t) = [] := by
  unfold compareNodeInputs
  exact List.flatMap_eq_nil_iff.mpr (fun nm _ => inputDiff_rename_right r hr g t nm)

theorem nodesOfType_rename (r : String → String) (g : ComfyWorkflowJson)
    (ct : String) :
    nodesOfType (renameWorkflow r g) ct =
      (nodesOfType g ct).map (fun p => (r p.1, renameNode r p.2)) := by
  unfold nodesOfType renameWorkflow
  rw [List.filter_map]
  rfl

theorem classTypesOf_rename (r : String → String) (g : ComfyWorkflowJson) :
    classTypesOf (renameWorkflow r g) = classTypesOf g := by
  unfold classTypesOf renameWorkflow
  rw [List.map_map]
  rfl

/- ===== Per-class emptiness for reflexivity and renaming ===== -/

theorem inputDiff_refl (g : ComfyWorkflowJson) (t : ComfyNode) (nm : String) :
    inputDiff g t g t nm = [] := by
  unfold inputDiff
  cases hv : lookupInput t nm with
  | none => simp
  | some v => cases v <;> simp

theorem compareNodeInputs_refl (g : ComfyWorkflowJson) (t : ComfyNode) :
    compareNodeInputs g t g t = [] := by
  unfold compareNodeInputs
  exact List.flatMap_eq_nil_iff.mpr (fun nm _ => inputDiff_refl g t nm)

theorem greedyMatch_full_of_eq_hashes (ths oths : List (String × ComfyNode))
    (h : ths.map Prod.fst = oths.map Prod.fst) :
    greedyMatch ths oths = ([], []) :=
  greedyMatch_full_of_perm ths oths (h ▸ List.Perm.refl _)

theorem findBestNodeMatching_empty_of_eq_hashes (g og : ComfyWorkflowJson)
    (tns ons : List (String × ComfyNode))
    (h : tns.map (fun p => hashNodeInputs g p.2) =
      ons.map (fun p => hashNodeInputs og p.2)) :
    findBestNodeMatching g tns og ons = [] := by
  unfold findBestNodeMatching
  dsimp only
  have hh : (tns.map (fun p => (hashNodeInputs g p.2, p.2))).map Prod.fst
      = (ons.map (fun p => (hashNodeInputs og p.2, p.2))).map Prod.fst := by
    rw [List.map_map, List.map_map]
    exact h
  rw [greedyMatch_full_of_eq_hashes _ _ hh]

theorem diffsForClass_refl (g : ComfyWorkflowJson) (ct : String) :
    diffsForClass g g ct = [] := by
  unfold diffsForClass
  dsimp only
  rw [if_neg (by exact fun h => h rfl)]
  cases htn : nodesOfType g ct with
  | nil => rfl
  | cons t1 rest =>
    cases rest with
    | nil =>
      dsimp only
      rw [compareNodeInputs_refl]
      rfl
    | cons t2 ts =>
      dsimp only
      rw [findBestNodeMatching_empty_of_eq_hashes g g _ _ rfl]
      rfl

theorem diffsForClass_rename_left (r : String → String)
    (hr : Function.Injective r) (g : ComfyWorkflowJson) (ct : String) :
    diffsForClass (renameWorkflow r g) g ct = [] := by
  unfold diffsForClass
  dsimp only
  rw [nodesOfType_rename]
  rw [if_neg (by simp)]
  cases htn : nodesOfType g ct with
  | nil => rfl
  | cons t1 rest =>
    cases rest with
    | nil =>
      dsimp only [List.map_cons, List.map_nil]
      rw [compareNodeInputs_rename_left r hr]
      rfl
    | cons t2 ts =>
      dsimp only [List.map_cons]
      have hh : ((t1 :: t2 :: ts).map (fun p => (r p.1, renameNode r p.2))).map
          (fun p => hashNodeInputs (renameWorkflow r g) p.2)
          = (t1 :: t2 :: ts).map (fun p => hashNodeInputs g p.2) := by
        rw [List.map_map]
        apply List.map_congr_left
        intro p _
        exact hashNodeInputs_rename r hr g p.2
      rw [← List.map_cons (fun p => (r p.1, renameNode r p.2)) t2 ts,
        ← List.map_cons (fun p => (r p.1, renameNode r p.2)) t1 (t2 :: ts)]
      rw [findBestNodeMatching_empty_of_eq_hashes (renameWorkflow r g) g _ _ hh]
      rfl

theorem diffsForClass_rename_right (r : String → String)
    (hr : Function.Injective r) (g : ComfyWorkflowJson) (ct : String) :
    diffsForClass g (renameWorkflow r g) ct = [] := by
  unfold diffsForClass
  dsimp only
  rw [nodesOfType_rename]
  rw [if_neg (by simp)]
  cases htn : nodesOfType g ct with
  | nil => rfl
  | cons t1 rest =>
    cases rest with
    | nil =>
      dsimp only [List.map_cons, List.map_nil]
      rw [compareNodeInputs_rename_right r hr]
      rfl
    | cons t2 ts =>
      dsimp only [List.map_cons]
      have hh : (t1 :: t2 :: ts).map (fun p => hashNodeInputs g p.2)
          = ((t1 :: t2 :: ts).map (fun p => (r p.1, renameNode r p.2))).map
            (fun p => hashNodeInputs (renameWorkflow r g) p.2) := by
        rw [List.map_map]
        apply List.map_congr_left
        intro p _
        exact (hashNodeInputs_rename r hr g p.2).symm
      rw [← List.map_cons (fun p => (r p.1, renameNode r p.2)) t2 ts,
        ← List.map_cons (fun p => (r p.1, renameNode r p.2)) t1 (t2 :: ts)]
      rw [findBestNodeMatching_empty_of_eq_hashes g (renameWorkflow r g) _ _ hh]
      rfl

/- ===== Claim theorems: reflexivity and id-renaming invariance ===== -/

/-- C3: for every graph G, getStructuralDiff(G, G) is the empty list and
    isStructurallyEquivalentTo(G, G) is true, for every graph including
    those with multiple same-class nodes and arbitrary literal and
    Connection inputs. -/
theorem structural_equivalence_reflexive (g : ComfyWorkflowJson) :
    getStructuralDiff g g = [] ∧ isStructurallyEquivalentTo g g = true := by
  have hdiff : getStructuralDiff g g = [] := by
    unfold getStructuralDiff
    exact List.flatMap_eq_nil_iff.mpr (fun ct _ => diffsForClass_refl g ct)
  refine ⟨hdiff, ?_⟩
  unfold isStructurallyEquivalentTo
  rw [hdiff]
  rfl

/-- C1: for every graph G and every injective remapping r of node ids,
    applied both to the graph's keys and to the source-id component of every
    Connection input, the remapped graph is structurally equivalent to G:
    getStructuralDiff between the remapped graph and G is empty in both
    directions. -/
theorem id_renaming_invariance (g : ComfyWorkflowJson) (r : String → String)
    (hr : Function.Injective r) :
    getStructuralDiff (renameWorkflow r g) g = [] ∧
      getStructuralDiff g (renameWorkflow r g) = [] ∧
      isStructurallyEquivalentTo (renameWorkflow r g) g = true ∧
      isStructurallyEquivalentTo g (renameWorkflow r g) = true := by
  have h1 : getStructuralDiff (renameWorkflow r g) g = [] := by
    unfold getStructuralDiff
    exact List.flatMap_eq_nil_iff.mpr (fun ct _ => diffsForClass_rename_left r hr g ct)
  have h2 : getStructuralDiff g (renameWorkflow r g) = [] := by
    unfold getStructuralDiff
    exact List.flatMap_eq_nil_iff.mpr (fun ct _ => diffsForClass_rename_right r hr g ct)
  refine ⟨h1, h2, ?_, ?_⟩
  · unfold isStructurallyEquivalentTo
    rw [h1]
    rfl
  · unfold isStructurallyEquivalentTo
    rw [h2]
    rfl

/-- Witness for C1: a concrete two-node graph with one connection, remapped
    by prefixing every id with "n" (an injective, non-identity remapping). -/
theorem id_renaming_invariance_witness :
    Function.Injective (fun s : String => "n" ++ s) ∧
      (getStructuralDiff
        (renameWorkflow (fun s : String => "n" ++ s)
          [("1", ⟨[("v", InputValue.str "m")], "V"⟩),
           ("2", ⟨[("x", InputValue.num 1), ("c", InputValue.conn "1" 0)], "K"⟩)])
        [("1", ⟨[("v", InputValue.str "m")], "V"⟩),
         ("2", ⟨[("x", InputValue.num 1), ("c", InputValue.conn "1" 0)], "K"⟩)] = [] ∧
       getStructuralDiff
        [("1", ⟨[("v", InputValue.str "m")], "V"⟩),
         ("2", ⟨[("x", InputValue.num 1), ("c", InputValue.conn "1" 0)], "K"⟩)]
        (renameWorkflow (fun s : String => "n" ++ s)
          [("1", ⟨[("v", InputValue.str "m")], "V"⟩),
           ("2", ⟨[("x", InputValue.num 1), ("c", InputValue.conn "1" 0)], "K"⟩)]) = [] ∧
       isStructurallyEquivalentTo
        (renameWorkflow (fun s : String => "n" ++ s)
          [("1", ⟨[("v", InputValue.str "m")], "V"⟩),
           ("2", ⟨[("x", InputValue.num 1), ("c", InputValue.conn "1" 0)], "K"⟩)])
        [("1", ⟨[("v", InputValue.str "m")], "V"⟩),
         ("2", ⟨[("x", InputValue.num 1), ("c", InputValue.conn "1" 0)], "K"⟩)] = true ∧
       isStructurallyEquivalentTo
        [("1", ⟨[("v", InputValue.str "m")], "V"⟩),
         ("2", ⟨[("x", InputValue.num 1), ("c", InputValue.conn "1" 0)], "K"⟩)]
        (renameWorkflow (fun s : String => "n" ++ s)
          [("1", ⟨[("v", InputValue.str "m")], "V"⟩),
           ("2", ⟨[("x", InputValue.num 1), ("c", InputValue.conn "1" 0)], "K"⟩)]) = true) := by
  have hinj : Function.Injective (fun s : String => "n" ++ s) := by
    intro a b h
    have h2 := congrArg String.data h
    simp only [String.data_append] at h2
    exact String.ext (List.append_cancel_left h2)
  exact ⟨hinj, id_renaming_invariance _ _ hinj⟩

/- ===== Extracting one class tag's diffs ===== -/

theorem mem_classTypesOf_iff (g : ComfyWorkflowJson) (ct : String) :
    ct ∈ classTypesOf g ↔ nodesOfType g ct ≠ [] := by
  unfold classTypesOf nodesOfType
  rw [mem_dedupFirst]
  constructor
  · intro h hnil
    rcases List.mem_map.mp h with ⟨p, hp, hpct⟩
    have hpf : p ∈ g.filter (fun p => p.2.class_type == ct) :=
      List.mem_filter.mpr ⟨hp, by simp [hpct]⟩
    rw [hnil] at hpf
    cases hpf
  · intro h
    by_contra hnm
    apply h
    apply List.filter_eq_nil_iff.mpr
    intro p hp hc
    rw [beq_iff_eq] at hc
    exact hnm (List.mem_map.mpr ⟨p, hp, hc⟩)

theorem getStructuralDiff_filter_class (g og : ComfyWorkflowJson) (ct : String)
    (hct : ct ∈ setUnion (classTypesOf g) (classTypesOf og)) :
    (getStructuralDiff g og).filter (fun d => d.classType == some ct) =
      diffsForClass g og ct := by
  unfold getStructuralDiff
  exact filter_proj_flatMap (fun d => d.classType) _ _
    (fun s d hd => diffsForClass_classType g og s d hd) (nodup_setUnion _ _) ct hct

/- ===== Claim theorem: per-class count mismatch ===== -/

/-- C4: when a class tag's node counts differ between subject A and
    reference B, getStructuralDiff(A, B) carries, for that tag, exactly one
    class_type_count_mismatch record with expected = B's count and
    actual = A's count, and no other record (in particular no
    input_mismatch or connection_mismatch) tagged with that class; the two
    graphs are then not structurally equivalent. -/
theorem class_count_mismatch_diff (g og : ComfyWorkflowJson) (ct : String)
    (h : (nodesOfType g ct).length ≠ (nodesOfType og ct).length) :
    (getStructuralDiff g og).filter (fun d => d.classType == some ct) =
      [⟨.class_type_count_mismatch, some ct, none,
        .num (nodesOfType og ct).length, .num (nodesOfType g ct).length,
        ct ++ ": expected " ++ toString (nodesOfType og ct).length ++
          " nodes, got " ++ toString (nodesOfType g ct).length⟩] ∧
      isStructurallyEquivalentTo g og = false := by
  have hmem : ct ∈ setUnion (classTypesOf g) (classTypesOf og) := by
    rw [mem_setUnion, mem_classTypesOf_iff, mem_classTypesOf_iff]
    by_contra hc
    push_neg at hc
    obtain ⟨h1, h2⟩ := hc
    exact h (by rw [h1, h2])
  have hclass : diffsForClass g og ct =
      [⟨.class_type_count_mismatch, some ct, none,
        .num (nodesOfType og ct).length, .num (nodesOfType g ct).length,
        ct ++ ": expected " ++ toString (nodesOfType og ct).length ++
          " nodes, got " ++ toString (nodesOfType g ct).length⟩] := by
    unfold diffsForClass
    dsimp only
    rw [if_pos h]
  have hfil := getStructuralDiff_filter_class g og ct hmem
  refine ⟨by rw [hfil, hclass], ?_⟩
  have hne : getStructuralDiff g og ≠ [] := by
    intro hnil
    rw [hnil] at hfil
    rw [hclass] at hfil
    cases hfil
  unfold isStructurallyEquivalentTo
  rw [beq_eq_false_iff_ne]
  intro hlen
  exact hne (List.length_eq_zero.mp hlen)

/-- Witness for C4: the subject has two K nodes, the reference one. -/
theorem class_count_mismatch_diff_witness :
    (nodesOfType [("1", ⟨[], "K"⟩), ("2", ⟨[], "K"⟩)] "K").length ≠
        (nodesOfType [("9", ⟨[], "K"⟩)] "K").length ∧
      ((getStructuralDiff [("1", ⟨[], "K"⟩), ("2", ⟨[], "K"⟩)]
          [("9", ⟨[], "K"⟩)]).filter (fun d => d.classType == some "K") =
        [⟨.class_type_count_mismatch, some "K", none,
          .num (nodesOfType [("9", ⟨[], "K"⟩)] "K").length,
          .num (nodesOfType [("1", ⟨[], "K"⟩), ("2", ⟨[], "K"⟩)] "K").length,
          "K" ++ ": expected " ++
            toString (nodesOfType [("9", ⟨[], "K"⟩)] "K").length ++
            " nodes, got " ++
            toString
              (nodesOfType [("1", ⟨[], "K"⟩), ("2", ⟨[], "K"⟩)] "K").length⟩] ∧
        isStructurallyEquivalentTo [("1", ⟨[], "K"⟩), ("2", ⟨[], "K"⟩)]
          [("9", ⟨[], "K"⟩)] = false) :=
  ⟨by decide, class_count_mismatch_diff _ _ "K" (by decide)⟩

/- ===== The spec's greedy pairing coincides with the implementation ===== -/

theorem specFirstMatchIdx_erase (h : String) (l : List (String × ComfyNode)) :
    (specFirstMatchIdx h l).map (fun j => l.eraseIdx j) = eraseFirstHash h l := by
  unfold specFirstMatchIdx
  induction l with
  | nil => rfl
  | cons q qs ih =>
    by_cases hq : q.1 = h
    · rw [List.findIdx?_cons, if_pos (by simp [hq])]
      simp only [eraseFirstHash, if_pos hq]
      rfl
    · rw [List.findIdx?_cons, if_neg (by simp [hq]), List.findIdx?_succ]
      simp only [eraseFirstHash, if_neg hq]
      rw [← ih, Option.map_map, Option.map_map]
      cases qs.findIdx? (fun q' => q'.1 == h) with
      | none => rfl
      | some j => rfl

theorem specGreedyStep_eq (t : String × ComfyNode)
    (unA remB : List (String × ComfyNode)) :
    specGreedyStep (unA, remB) t =
      (match eraseFirstHash t.1 remB with
        | some remB' => (unA, remB')
        | none => (unA ++ [t], remB)) := by
  unfold specGreedyStep
  rw [← specFirstMatchIdx_erase t.1 remB]
  cases specFirstMatchIdx t.1 remB with
  | none => rfl
  | some j => rfl

theorem specGreedyPairing_loop (ths : List (String × ComfyNode)) :
    ∀ (oths acc : List (String × ComfyNode)),
      ths.foldl specGreedyStep (acc, oths) =
        (acc ++ (greedyMatch ths oths).1, (greedyMatch ths oths).2) := by
  induction ths with
  | nil => intro oths acc; simp [greedyMatch]
  | cons t ts ih =>
    intro oths acc
    rw [List.foldl_cons, specGreedyStep_eq]
    cases he : eraseFirstHash t.1 oths with
    | some oths' =>
      dsimp only
      rw [ih oths' acc]
      simp only [greedyMatch, he]
    | none =>
      dsimp only
      rw [ih oths (acc ++ [t])]
      simp only [greedyMatch, he]
      rw [List.append_assoc]
      rfl

theorem specGreedyPairing_eq_greedyMatch
    (ths oths : List (String × ComfyNode)) :
    specGreedyPairing ths oths = greedyMatch ths oths := by
  unfold specGreedyPairing
  rw [specGreedyPairing_loop ths oths []]
  rfl

theorem specMatchingDiffs_eq_findBestNodeMatching (g : ComfyWorkflowJson)
    (tns : List (String × ComfyNode)) (og : ComfyWorkflowJson)
    (ons : List (String × ComfyNode)) :
    specMatchingDiffs g tns og ons = findBestNodeMatching g tns og ons := by
  unfold specMatchingDiffs findBestNodeMatching
  dsimp only
  rw [specGreedyPairing_eq_greedyMatch]

/- ===== Claim theorem: multi-node greedy matching ===== -/

/-- C2: for a class tag with more than one node on each side (equal counts),
    the diffs getStructuralDiff emits for that tag are exactly those of the
    spec's greedy pairing: subject nodes in original order each take the
    first remaining hash-equal reference node; if unmatched nodes remain on
    both sides, node-input-diff runs on exactly the first unmatched subject
    node against the first remaining unmatched reference node, and no
    record is emitted for any other unmatched pair. -/
theorem greedy_matching_behaviour (g og : ComfyWorkflowJson) (ct : String)
    (h1 : 1 < (nodesOfType g ct).length)
    (h2 : (nodesOfType g ct).length = (nodesOfType og ct).length) :
    (getStructuralDiff g og).filter (fun d => d.classType == some ct) =
      (specMatchingDiffs g (nodesOfType g ct) og (nodesOfType og ct)).map
        (withClassType ct) := by
  have hne : nodesOfType g ct ≠ [] := by
    intro hnil
    rw [hnil] at h1
    simp at h1
  have hmem : ct ∈ setUnion (classTypesOf g) (classTypesOf og) := by
    rw [mem_setUnion, mem_classTypesOf_iff]
    exact Or.inl hne
  rw [getStructuralDiff_filter_class g og ct hmem,
    specMatchingDiffs_eq_findBestNodeMatching]
  obtain ⟨t1, t2, ts, htn⟩ :
      ∃ t1 t2 ts, nodesOfType g ct = t1 :: t2 :: ts := by
    cases hl : nodesOfType g ct with
    | nil => rw [hl] at h1; simp at h1
    | cons a rest =>
      cases rest with
      | nil => rw [hl] at h1; simp at h1
      | cons b ts => exact ⟨a, b, ts, rfl⟩
  unfold diffsForClass
  dsimp only
  rw [if_neg (by omega), htn]

/-- Witness for C2: two K nodes on each side; one pair hash-matches, the
    other pair is diffed. -/
theorem greedy_matching_behaviour_witness :
    1 < (nodesOfType [("1", ⟨[("x", InputValue.num 1)], "K"⟩),
        ("2", ⟨[("x", InputValue.num 2)], "K"⟩)] "K").length ∧
      (nodesOfType [("1", ⟨[("x", InputValue.num 1)], "K"⟩),
        ("2", ⟨[("x", InputValue.num 2)], "K"⟩)] "K").length =
        (nodesOfType [("8", ⟨[("x", InputValue.num 1)], "K"⟩),
          ("9", ⟨[("x", InputValue.num 3)], "K"⟩)] "K").length ∧
      (getStructuralDiff
          [("1", ⟨[("x", InputValue.num 1)], "K"⟩),
           ("2", ⟨[("x", InputValue.num 2)], "K"⟩)]
          [("8", ⟨[("x", InputValue.num 1)], "K"⟩),
           ("9", ⟨[("x", InputValue.num 3)], "K"⟩)]).filter
          (fun d => d.classType == some "K") =
        (specMatchingDiffs
            [("1", ⟨[("x", InputValue.num 1)], "K"⟩),
             ("2", ⟨[("x", InputValue.num 2)], "K"⟩)]
            (nodesOfType [("1", ⟨[("x", InputValue.num 1)], "K"⟩),
              ("2", ⟨[("x", InputValue.num 2)], "K"⟩)] "K")
            [("8", ⟨[("x", InputValue.num 1)], "K"⟩),
             ("9", ⟨[("x", InputValue.num 3)], "K"⟩)]
            (nodesOfType [("8", ⟨[("x", InputValue.num 1)], "K"⟩),
              ("9", ⟨[("x", InputValue.num 3)], "K"⟩)] "K")).map
          (withClassType "K") :=
  ⟨by decide, by decide, greedy_matching_behaviour _ _ "K" (by decide) (by decide)⟩

/- ===== Extracting one input name's contribution ===== -/

theorem compareNodeInputs_filter_input (g : ComfyWorkflowJson) (t : ComfyNode)
    (og : ComfyWorkflowJson) (o : ComfyNode) (nm : String)
    (hmem : nm ∈ setUnion (t.inputs.map Prod.fst) (o.inputs.map Prod.fst)) :
    (compareNodeInputs g t og o).filter (fun d => d.inputName == some nm) =
      inputDiff g t og o nm := by
  unfold compareNodeInputs
  exact filter_proj_flatMap (fun d => d.inputName) _ _
    (fun s d hd => inputDiff_inputName g t og o s d hd) (nodup_setUnion _ _) nm hmem

/- ===== Claim theorem: connection normalization decides the diff ===== -/

/-- C5: when both sides' values for an input are Connections, a
    connection_mismatch record is emitted for that input exactly when the
    normalized classTag:port strings (each resolved against its owning
    graph) are unequal, with expected = the reference side's string and
    actual = the subject side's; when the two source nodes' class tags and
    ports agree, no diff is emitted even if the source ids differ. -/
theorem connection_mismatch_iff_normalized (g og : ComfyWorkflowJson)
    (t o : ComfyNode) (nm : String) (s1 s2 : String) (p1 p2 : Nat)
    (ht : lookupInput t nm = some (InputValue.conn s1 p1))
    (ho : lookupInput o nm = some (InputValue.conn s2 p2)) :
    ((compareNodeInputs g t og o).filter (fun d => d.inputName == some nm) =
      (if normalizeConnection g (s1, p1) ≠ normalizeConnection og (s2, p2) then
        [⟨.connection_mismatch, none, some nm,
          .str (normalizeConnection og (s2, p2)),
          .str (normalizeConnection g (s1, p1)),
          "Input \"" ++ nm ++ "\": connection mismatch - expected " ++
            normalizeConnection og (s2, p2) ++ ", got " ++
            normalizeConnection g (s1, p1)⟩]
      else [])) ∧
      (∀ n1 n2, lookupNode g s1 = some n1 → lookupNode og s2 = some n2 →
        n1.class_type = n2.class_type → p1 = p2 →
        (compareNodeInputs g t og o).filter (fun d => d.inputName == some nm) = []) := by
  have hmem : nm ∈ setUnion (t.inputs.map Prod.fst) (o.inputs.map Prod.fst) :=
    (mem_setUnion _ _ nm).mpr (Or.inl (mem_keys_of_lookupInput_eq_some t nm _ ht))
  have hfil := compareNodeInputs_filter_input g t og o nm hmem
  have hid : inputDiff g t og o nm =
      (if normalizeConnection g (s1, p1) ≠ normalizeConnection og (s2, p2) then
        [⟨.connection_mismatch, none, some nm,
          .str (normalizeConnection og (s2, p2)),
          .str (normalizeConnection g (s1, p1)),
          "Input \"" ++ nm ++ "\": connection mismatch - expected " ++
            normalizeConnection og (s2, p2) ++ ", got " ++
            normalizeConnection g (s1, p1)⟩]
      else []) := by
    unfold inputDiff
    rw [ht, ho]
  refine ⟨by rw [hfil, hid], ?_⟩
  intro n1 n2 hn1 hn2 hcls hp
  rw [hfil, hid]
  have heq : normalizeConnection g (s1, p1) = normalizeConnection og (s2, p2) := by
    unfold normalizeConnection
    dsimp only
    rw [hn1, hn2]
    dsimp only
    rw [hcls, hp]
  have hcond : ¬(normalizeConnection g (s1, p1) ≠ normalizeConnection og (s2, p2)) := by
    rw [heq]
    exact fun hc => hc rfl
  rw [if_neg hcond]

/-- Witness for C5: same source class tag, different source ids, then a
    genuinely mismatching pair. -/
theorem connection_mismatch_iff_normalized_witness :
    lookupInput ⟨[("c", InputValue.conn "1" 0)], "T"⟩ "c" =
        some (InputValue.conn "1" 0) ∧
      lookupInput ⟨[("c", InputValue.conn "9" 0)], "T"⟩ "c" =
        some (InputValue.conn "9" 0) ∧
      ((compareNodeInputs [("1", ⟨[], "S"⟩)] ⟨[("c", InputValue.conn "1" 0)], "T"⟩
          [("9", ⟨[], "S"⟩)] ⟨[("c", InputValue.conn "9" 0)], "T"⟩).filter
          (fun d => d.inputName == some "c") =
        (if normalizeConnection [("1", ⟨[], "S"⟩)] ("1", 0) ≠
            normalizeConnection [("9", ⟨[], "S"⟩)] ("9", 0) then
          [⟨.connection_mismatch, none, some "c",
            .str (normalizeConnection [("9", ⟨[], "S"⟩)] ("9", 0)),
            .str (normalizeConnection [("1", ⟨[], "S"⟩)] ("1", 0)),
            "Input \"" ++ "c" ++ "\": connection mismatch - expected " ++
              normalizeConnection [("9", ⟨[], "S"⟩)] ("9", 0) ++ ", got " ++
              normalizeConnection [("1", ⟨[], "S"⟩)] ("1", 0)⟩]
        else []) ∧
        (∀ n1 n2, lookupNode [("1", ⟨[], "S"⟩)] "1" = some n1 →
          lookupNode [("9", ⟨[], "S"⟩)] "9" = some n2 →
          n1.class_type = n2.class_type → 0 = 0 →
          (compareNodeInputs [("1", ⟨[], "S"⟩)]
              ⟨[("c", InputValue.conn "1" 0)], "T"⟩ [("9", ⟨[], "S"⟩)]
              ⟨[("c", InputValue.conn "9" 0)], "T"⟩).filter
            (fun d => d.inputName == some "c") = [])) :=
  ⟨by decide, by decide,
    connection_mismatch_iff_normalized _ _ _ _ "c" "1" "9" 0 0 (by decide) (by decide)⟩

/- ===== Claim theorem: dangling connections normalize to UNKNOWN ===== -/

/-- C10: a Connection whose source id does not exist in the owning graph is
    normalized to the string UNKNOWN: followed by the port, both in the
    content hash's encoding and in node-input-diff; two dangling
    Connections with equal ports therefore compare equal (no
    connection_mismatch and identical hash contribution) regardless of
    which distinct nonexistent ids they reference. -/
theorem dangling_connection_unknown (g og : ComfyWorkflowJson)
    (t o : ComfyNode) (nm : String) (s1 s2 : String) (p : Nat)
    (ht : lookupInput t nm = some (InputValue.conn s1 p))
    (ho : lookupInput o nm = some (InputValue.conn s2 p))
    (d1 : lookupNode g s1 = none) (d2 : lookupNode og s2 = none) :
    normalizeConnection g (s1, p) = "UNKNOWN:" ++ toString p ∧
      normalizeConnection og (s2, p) = "UNKNOWN:" ++ toString p ∧
      encodeValue g (InputValue.conn s1 p) = encodeValue og (InputValue.conn s2 p) ∧
      (compareNodeInputs g t og o).filter (fun d => d.inputName == some nm) = [] := by
  have h1 : normalizeConnection g (s1, p) = "UNKNOWN:" ++ toString p := by
    unfold normalizeConnection
    dsimp only
    rw [d1]
  have h2 : normalizeConnection og (s2, p) = "UNKNOWN:" ++ toString p := by
    unfold normalizeConnection
    dsimp only
    rw [d2]
  have henc : encodeValue g (InputValue.conn s1 p) = encodeValue og (InputValue.conn s2 p) := by
    show normalizeConnection g (s1, p) = normalizeConnection og (s2, p)
    rw [h1, h2]
  have hmem : nm ∈ setUnion (t.inputs.map Prod.fst) (o.inputs.map Prod.fst) :=
    (mem_setUnion _ _ nm).mpr (Or.inl (mem_keys_of_lookupInput_eq_some t nm _ ht))
  refine ⟨h1, h2, henc, ?_⟩
  rw [compareNodeInputs_filter_input g t og o nm hmem]
  unfold inputDiff
  rw [ht, ho]
  dsimp only
  have hcond : ¬(normalizeConnection g (s1, p) ≠ normalizeConnection og (s2, p)) := by
    rw [h1, h2]
    exact fun hc => hc rfl
  rw [if_neg hcond]

/-- Witness for C10: two dangling connections with distinct missing source
    ids and the same port. -/
theorem dangling_connection_unknown_witness :
    lookupInput ⟨[("c", InputValue.conn "77" 4)], "T"⟩ "c" =
        some (InputValue.conn "77" 4) ∧
      lookupInput ⟨[("c", InputValue.conn "88" 4)], "T"⟩ "c" =
        some (InputValue.conn "88" 4) ∧
      lookupNode ([] : ComfyWorkflowJson) "77" = none ∧
      lookupNode ([] : ComfyWorkflowJson) "88" = none ∧
      (normalizeConnection [] ("77", 4) = "UNKNOWN:" ++ toString 4 ∧
        normalizeConnection [] ("88", 4) = "UNKNOWN:" ++ toString 4 ∧
        encodeValue [] (InputValue.conn "77" 4) =
          encodeValue [] (InputValue.conn "88" 4) ∧
        (compareNodeInputs [] ⟨[("c", InputValue.conn "77" 4)], "T"⟩
            [] ⟨[("c", InputValue.conn "88" 4)], "T"⟩).filter
          (fun d => d.inputName == some "c") = []) :=
  ⟨by decide, by decide, by decide, by decide,
    dangling_connection_unknown _ _ _ _ "c" "77" "88" 4 (by decide) (by decide)
      (by decide) (by decide)⟩

/- ===== removeNode ===== -/

theorem lookupNode_map_snd (g : ComfyWorkflowJson) (h : ComfyNode → ComfyNode)
    (j : String) :
    lookupNode (g.map (fun p => (p.1, h p.2))) j = (lookupNode g j).map h := by
  induction g with
  | nil => rfl
  | cons p ps ih =>
    show lookupNode ((p.1, h p.2) :: ps.map (fun p => (p.1, h p.2))) j = _
    rw [lookupNode_cons, lookupNode_cons]
    by_cases hj : p.1 = j
    · rw [if_pos hj, if_pos hj]
      rfl
    · rw [if_neg hj, if_neg hj]
      exact ih


theorem lookupNode_filter_ne (l : ComfyWorkflowJson) (i j : String)
    (hij : j ≠ i) :
    lookupNode (l.filter (fun p => p.1 != i)) j = lookupNode l j := by
  induction l with
  | nil => rfl
  | cons p ps ih =>
    rw [List.filter_cons]
    by_cases hpi : p.1 = i
    · rw [if_neg (by simp [hpi])]
      rw [lookupNode_cons, if_neg (fun hc => hij (by rw [← hc, hpi]))]
      exact ih
    · rw [if_pos (by simp [hpi])]
      rw [lookupNode_cons, lookupNode_cons]
      by_cases hpj : p.1 = j
      · rw [if_pos hpj, if_pos hpj]
      · rw [if_neg hpj, if_neg hpj]
        exact ih

theorem lookupNode_removeNode_self (g : ComfyWorkflowJson) (i : String) :
    lookupNode (removeNode g i) i = none := by
  unfold removeNode
  cases hl : lookupNode g i with
  | none => exact hl
  | some n =>
    dsimp only
    unfold lookupNode
    rw [List.find?_eq_none.mpr ?_]
    · rfl
    · intro x hx
      have hxf := (List.mem_filter.mp hx).2
      simp only [bne_iff_ne, ne_eq] at hxf
      simp [hxf]

theorem keys_filter_subset (pred : String × InputValue → Bool)
    (l : List (String × InputValue)) (k : String)
    (hk : k ∈ (l.filter pred).map Prod.fst) : k ∈ l.map Prod.fst := by
  rcases List.mem_map.mp hk with ⟨p, hp, hpk⟩
  exact List.mem_map.mpr ⟨p, (List.mem_filter.mp hp).1, hpk⟩

theorem keepInput_conn_self (i : String) (q : Nat) :
    keepInput i (InputValue.conn i q) = false := by
  simp [keepInput]

theorem lookupInput_removeConnInputsTo (i : String) (n : ComfyNode)
    (hwf : NodeWf n) (nm : String) :
    lookupInput (removeConnInputsTo i n) nm =
      (match lookupInput n nm with
        | some (InputValue.conn s q) =>
          if s = i then none else some (InputValue.conn s q)
        | v => v) := by
  obtain ⟨l, ct⟩ := n
  unfold NodeWf at hwf
  dsimp only at hwf
  induction l with
  | nil => rfl
  | cons a l ih =>
    obtain ⟨k, v⟩ := a
    have hwl : (l.map Prod.fst).Nodup := (List.nodup_cons.mp hwf).2
    have hana : k ∉ l.map Prod.fst := by
      have := (List.nodup_cons.mp hwf).1
      simpa using this
    have ihl := ih hwl
    show lookupInput ⟨((k, v) :: l).filter _, ct⟩ nm = _
    rw [List.filter_cons]
    by_cases hnm : k = nm
    · subst hnm
      rw [lookupInput_mk_cons (k, v) l ct k, if_pos rfl]
      cases v with
      | conn s q =>
        by_cases hsi : s = i
        · rw [if_neg (by simp [keepInput, hsi])]
          dsimp only
          rw [if_pos hsi]
          apply lookupInput_eq_none_of_not_mem
          intro hmem
          exact hana (keys_filter_subset _ l k hmem)
        · rw [if_pos (by simp [keepInput, hsi])]
          rw [lookupInput_mk_cons (k, InputValue.conn s q) _ ct k, if_pos rfl]
          dsimp only
          rw [if_neg hsi]
      | str s =>
        rw [if_pos (by simp [keepInput])]
        rw [lookupInput_mk_cons (k, InputValue.str s) _ ct k, if_pos rfl]
      | num m =>
        rw [if_pos (by simp [keepInput])]
        rw [lookupInput_mk_cons (k, InputValue.num m) _ ct k, if_pos rfl]
      | bool b =>
        rw [if_pos (by simp [keepInput])]
        rw [lookupInput_mk_cons (k, InputValue.bool b) _ ct k, if_pos rfl]
      | null =>
        rw [if_pos (by simp [keepInput])]
        rw [lookupInput_mk_cons (k, InputValue.null) _ ct k, if_pos rfl]
    · by_cases hkeep : keepInput i v = true
      · rw [if_pos hkeep]
        rw [lookupInput_mk_cons (k, v) _ ct nm, if_neg hnm,
          lookupInput_mk_cons (k, v) l ct nm, if_neg hnm]
        exact ihl
      · rw [if_neg hkeep]
        rw [lookupInput_mk_cons (k, v) l ct nm, if_neg hnm]
        exact ihl

theorem lookupNode_some_mem (g : ComfyWorkflowJson) (j : String)
    (n : ComfyNode) (h : lookupNode g j = some n) : (j, n) ∈ g := by
  unfold lookupNode at h
  cases hf : g.find? (fun p => p.1 == j) with
  | none => rw [hf] at h; cases h
  | some p =>
    rw [hf] at h
    have h2 : p.2 = n := by simpa using h
    have hmem := List.mem_of_find?_eq_some hf
    have hpred := List.find?_some hf
    rw [beq_iff_eq] at hpred
    rw [← h2, ← hpred, Prod.mk.eta]
    exact hmem

/- ===== Claim theorem: removeNode ===== -/

/-- C7: removeNode on an absent id leaves the graph unchanged (no error);
    on a present id it deletes that node and, in every remaining node,
    deletes exactly those inputs whose value is a Connection whose source
    id equals the removed id, while the remaining nodes, their class tags,
    and all their other inputs are unchanged. -/
theorem removeNode_spec (g : ComfyWorkflowJson) (i : String)
    (hw : WorkflowWf g) :
    (lookupNode g i = none → removeNode g i = g) ∧
      lookupNode (removeNode g i) i = none ∧
      (∀ j, lookupNode g j = none → lookupNode (removeNode g i) j = none) ∧
      (lookupNode g i ≠ none → ∀ j n, j ≠ i → lookupNode g j = some n →
        ∃ n', lookupNode (removeNode g i) j = some n' ∧
          n'.class_type = n.class_type ∧
          (∀ nm, lookupInput n' nm =
            (match lookupInput n nm with
              | some (InputValue.conn s q) =>
                if s = i then none else some (InputValue.conn s q)
              | v => v))) := by
  refine ⟨?_, lookupNode_removeNode_self g i, ?_, ?_⟩
  · intro h
    unfold removeNode
    rw [h]
  · intro j hj
    by_cases hji : j = i
    · subst hji
      exact lookupNode_removeNode_self g j
    · unfold removeNode
      cases hl : lookupNode g i with
      | none => exact hj
      | some m =>
        dsimp only
        rw [lookupNode_filter_ne _ i j hji, lookupNode_map_snd, hj]
        rfl
  · intro hpres j n hji hj
    refine ⟨removeConnInputsTo i n, ?_, rfl, ?_⟩
    · unfold removeNode
      cases hl : lookupNode g i with
      | none => exact absurd hl hpres
      | some m =>
        dsimp only
        rw [lookupNode_filter_ne _ i j hji, lookupNode_map_snd, hj]
        rfl
    · have hwf : NodeWf n := hw.2 (j, n) (lookupNode_some_mem g j n hj)
      exact lookupInput_removeConnInputsTo i n hwf

/-- Witness for C7: removing node 1 detaches node 2's connection input
    while keeping its literal input; a missing id is a no-op. -/
theorem removeNode_spec_witness :
    WorkflowWf [("1", ⟨[], "A"⟩),
        ("2", ⟨[("x", InputValue.conn "1" 0), ("y", InputValue.num 5)], "B"⟩)] ∧
      ((lookupNode [("1", ⟨[], "A"⟩),
          ("2", ⟨[("x", InputValue.conn "1" 0), ("y", InputValue.num 5)], "B"⟩)]
          "1" = none →
        removeNode [("1", ⟨[], "A"⟩),
          ("2", ⟨[("x", InputValue.conn "1" 0), ("y", InputValue.num 5)], "B"⟩)]
          "1" =
          [("1", ⟨[], "A"⟩),
           ("2", ⟨[("x", InputValue.conn "1" 0), ("y", InputValue.num 5)], "B"⟩)]) ∧
        lookupNode (removeNode [("1", ⟨[], "A"⟩),
          ("2", ⟨[("x", InputValue.conn "1" 0), ("y", InputValue.num 5)], "B"⟩)]
          "1") "1" = none ∧
        (∀ j, lookupNode [("1", ⟨[], "A"⟩),
            ("2", ⟨[("x", InputValue.conn "1" 0), ("y", InputValue.num 5)], "B"⟩)]
            j = none →
          lookupNode (removeNode [("1", ⟨[], "A"⟩),
            ("2", ⟨[("x", InputValue.conn "1" 0), ("y", InputValue.num 5)], "B"⟩)]
            "1") j = none) ∧
        (lookupNode [("1", ⟨[], "A"⟩),
            ("2", ⟨[("x", InputValue.conn "1" 0), ("y", InputValue.num 5)], "B"⟩)]
            "1" ≠ none →
          ∀ j n, j ≠ "1" →
            lookupNode [("1", ⟨[], "A"⟩),
              ("2", ⟨[("x", InputValue.conn "1" 0), ("y", InputValue.num 5)], "B"⟩)]
              j = some n →
            ∃ n', lookupNode (removeNode [("1", ⟨[], "A"⟩),
                ("2", ⟨[("x", InputValue.conn "1" 0), ("y", InputValue.num 5)], "B"⟩)]
                "1") j = some n' ∧
              n'.class_type = n.class_type ∧
              (∀ nm, lookupInput n' nm =
                (match lookupInput n nm with
                  | some (InputValue.conn s q) =>
                    if s = "1" then none else some (InputValue.conn s q)
                  | v => v)))) :=
  ⟨by decide, removeNode_spec _ "1" (by decide)⟩

/- ===== validateConnections: isolation warnings ===== -/

theorem mem_referencedNodeIds_iff (g : ComfyWorkflowJson) (i : String) :
    i ∈ referencedNodeIds g ↔
      (occursAsConnSource g i = true ∨ ownsConnectionInput g i = true) := by
  unfold referencedNodeIds occursAsConnSource ownsConnectionInput
  simp only [List.mem_flatMap, List.any_eq_true]
  constructor
  · rintro ⟨p, hp, hkv⟩
    rcases hkv with ⟨kv, hkvmem, hmem⟩
    cases hv : kv.2 with
    | conn s q =>
      rw [hv] at hmem
      rcases List.mem_cons.mp hmem with rfl | hmem2
      · exact Or.inl ⟨p, hp, kv, hkvmem, by rw [hv]; simp⟩
      · have hip : i = p.1 := by simpa using hmem2
        refine Or.inr ⟨p, hp, ?_⟩
        rw [Bool.and_eq_true]
        exact ⟨by simp [hip], List.any_eq_true.mpr ⟨kv, hkvmem, by rw [hv]; rfl⟩⟩
    | str s => rw [hv] at hmem; cases hmem
    | num m => rw [hv] at hmem; cases hmem
    | bool b => rw [hv] at hmem; cases hmem
    | null => rw [hv] at hmem; cases hmem
  · rintro (⟨p, hp, kv, hkvmem, hpred⟩ | ⟨p, hp, hpred⟩)
    · cases hv : kv.2 with
      | conn s q =>
        rw [hv] at hpred
        rw [beq_iff_eq] at hpred
        refine ⟨p, hp, kv, hkvmem, ?_⟩
        rw [hv, hpred]
        exact List.mem_cons_self _ _
      | str s => rw [hv] at hpred; cases hpred
      | num m => rw [hv] at hpred; cases hpred
      | bool b => rw [hv] at hpred; cases hpred
      | null => rw [hv] at hpred; cases hpred
    · rw [Bool.and_eq_true] at hpred
      obtain ⟨hpi, hany⟩ := hpred
      rw [beq_iff_eq] at hpi
      rcases List.any_eq_true.mp hany with ⟨kv, hkvmem, hconn⟩
      cases hv : kv.2 with
      | conn s q =>
        refine ⟨p, hp, kv, hkvmem, ?_⟩
        rw [hv, ← hpi]
        exact List.mem_cons_of_mem _ (List.mem_cons_self _ _)
      | str s => rw [hv] at hconn; cases hconn
      | num m => rw [hv] at hconn; cases hconn
      | bool b => rw [hv] at hconn; cases hconn
      | null => rw [hv] at hconn; cases hconn

theorem isolation_count_aux (keys : List String) (hk : keys.Nodup)
    (R : List String) (i : String) :
    ((keys.flatMap (fun nodeId =>
        if nodeId ∈ R then ([] : List ValidationError)
        else
          [⟨some nodeId, none,
            "Node \"" ++ nodeId ++ "\" is isolated (no incoming or outgoing connections)",
            true⟩])).filter (fun w => w.nodeId == some i)).length =
      if i ∈ keys ∧ i ∉ R then 1 else 0 := by
  induction keys with
  | nil => simp
  | cons k ks ih =>
    have hknd := List.nodup_cons.mp hk
    rw [List.flatMap_cons, List.filter_append, List.length_append,
      ih hknd.2]
    by_cases hki : k = i
    · subst hki
      have hnotin : k ∉ ks := hknd.1
      by_cases hR : k ∈ R
      · rw [if_pos hR]
        rw [if_neg (by tauto), if_neg (by tauto)]
        simp
      · rw [if_neg hR]
        rw [if_neg (by tauto), if_pos (by exact ⟨List.mem_cons_self _ _, hR⟩)]
        simp
    · have hhead : (((if k ∈ R then ([] : List ValidationError)
          else
            [⟨some k, none,
              "Node \"" ++ k ++ "\" is isolated (no incoming or outgoing connections)",
              true⟩])).filter (fun w => w.nodeId == some i)).length = 0 := by
        by_cases hR : k ∈ R
        · rw [if_pos hR]
          rfl
        · rw [if_neg hR]
          simp [hki]
      rw [hhead]
      have hmemiff : (i ∈ k :: ks ∧ i ∉ R) ↔ (i ∈ ks ∧ i ∉ R) := by
        constructor
        · rintro ⟨hm, hr⟩
          rcases List.mem_cons.mp hm with rfl | hm2
          · exact absurd rfl hki
          · exact ⟨hm2, hr⟩
        · rintro ⟨hm, hr⟩
          exact ⟨List.mem_cons_of_mem _ hm, hr⟩
      rw [if_congr hmemiff rfl rfl]
      omega

/- ===== Claim theorem: isolation warnings ===== -/

/-- C9: for a well-formed graph, validateConnections emits exactly one
    isolated warning naming a node id exactly when that id is a node of the
    graph that neither occurs as the source id of any Connection input
    anywhere nor itself contains a Connection-valued input; any node with a
    connection in either direction receives none. -/
theorem isolation_warning_iff (g : ComfyWorkflowJson) (hw : WorkflowWf g)
    (i : String) :
    ((validateConnections g).warnings.filter
        (fun w => w.nodeId == some i)).length =
      if i ∈ g.map Prod.fst ∧ occursAsConnSource g i = false ∧
          ownsConnectionInput g i = false
      then 1 else 0 := by
  have hwarn : (validateConnections g).warnings = isolationWarnings g := rfl
  rw [hwarn]
  unfold isolationWarnings
  rw [isolation_count_aux (g.map Prod.fst) hw.1 (referencedNodeIds g) i]
  apply if_congr _ rfl rfl
  constructor
  · rintro ⟨hm, hr⟩
    refine ⟨hm, ?_, ?_⟩
    · cases ho : occursAsConnSource g i with
      | false => rfl
      | true => exact absurd ((mem_referencedNodeIds_iff g i).mpr (Or.inl ho)) hr
    · cases ho : ownsConnectionInput g i with
      | false => rfl
      | true => exact absurd ((mem_referencedNodeIds_iff g i).mpr (Or.inr ho)) hr
  · rintro ⟨hm, h1, h2⟩
    refine ⟨hm, fun hr => ?_⟩
    rcases (mem_referencedNodeIds_iff g i).mp hr with ho | ho
    · rw [h1] at ho
      cases ho
    · rw [h2] at ho
      cases ho

/-- Witness for C9: node 3 has no connection in either direction and gets
    exactly one warning; node 1 (a connection source) gets none. -/
theorem isolation_warning_iff_witness :
    WorkflowWf [("1", ⟨[], "A"⟩), ("2", ⟨[("x", InputValue.conn "1" 0)], "B"⟩),
        ("3", ⟨[("y", InputValue.num 7)], "C"⟩)] ∧
      ((validateConnections [("1", ⟨[], "A"⟩),
          ("2", ⟨[("x", InputValue.conn "1" 0)], "B"⟩),
          ("3", ⟨[("y", InputValue.num 7)], "C"⟩)]).warnings.filter
          (fun w => w.nodeId == some "3")).length =
        (if "3" ∈ ([("1", ⟨[], "A"⟩),
            ("2", ⟨[("x", InputValue.conn "1" 0)], "B"⟩),
            ("3", ⟨[("y", InputValue.num 7)], "C"⟩)] : ComfyWorkflowJson).map
              Prod.fst ∧
            occursAsConnSource [("1", ⟨[], "A"⟩),
              ("2", ⟨[("x", InputValue.conn "1" 0)], "B"⟩),
              ("3", ⟨[("y", InputValue.num 7)], "C"⟩)] "3" = false ∧
            ownsConnectionInput [("1", ⟨[], "A"⟩),
              ("2", ⟨[("x", InputValue.conn "1" 0)], "B"⟩),
              ("3", ⟨[("y", InputValue.num 7)], "C"⟩)] "3" = false
        then 1 else 0) :=
  ⟨by decide, isolation_warning_iff _ (by decide) "3"⟩

/- ===== Symmetry of diff emptiness ===== -/

theorem inputDiff_empty_symm (g og : ComfyWorkflowJson) (t o : ComfyNode)
    (nm : String) :
    inputDiff g t og o nm = [] → inputDiff og o g t nm = [] := by
  unfold inputDiff
  cases htv : lookupInput t nm with
  | none =>
    cases hov : lookupInput o nm with
    | none => intro h; simp_all
    | some w => cases w <;> (intro h; simp_all [isNodeConnection])
  | some v =>
    cases hov : lookupInput o nm with
    | none => cases v <;> (intro h; simp_all [isNodeConnection])
    | some w => cases v <;> cases w <;> (intro h; simp_all [isNodeConnection])

theorem compareNodeInputs_empty_symm (g og : ComfyWorkflowJson)
    (t o : ComfyNode) (h : compareNodeInputs g t og o = []) :
    compareNodeInputs og o g t = [] := by
  unfold compareNodeInputs at h ⊢
  rw [List.flatMap_eq_nil_iff] at h ⊢
  intro nm hnm
  apply inputDiff_empty_symm
  apply h
  rw [mem_setUnion] at hnm ⊢
  tauto

theorem compare_empty_keys_sub (g og : ComfyWorkflowJson) (t o : ComfyNode)
    (h : compareNodeInputs g t og o = []) (nm : String)
    (hnm : nm ∈ t.inputs.map Prod.fst) : nm ∈ o.inputs.map Prod.fst := by
  have hdiff : inputDiff g t og o nm = [] := by
    unfold compareNodeInputs at h
    rw [List.flatMap_eq_nil_iff] at h
    exact h nm ((mem_setUnion _ _ nm).mpr (Or.inl hnm))
  obtain ⟨v, hv⟩ : ∃ v, lookupInput t nm = some v :=
    Option.isSome_iff_exists.mp ((lookupInput_isSome_iff t nm).mpr hnm)
  by_contra hno
  have hnone : lookupInput o nm = none := lookupInput_eq_none_of_not_mem o nm hno
  unfold inputDiff at hdiff
  rw [hv, hnone] at hdiff
  cases v <;> simp_all [isNodeConnection]

theorem compare_empty_encode_eq (g og : ComfyWorkflowJson) (t o : ComfyNode)
    (h : compareNodeInputs g t og o = []) (nm : String) (v w : InputValue)
    (htv : lookupInput t nm = some v) (hov : lookupInput o nm = some w) :
    encodeValue g v = encodeValue og w := by
  have hdiff : inputDiff g t og o nm = [] := by
    unfold compareNodeInputs at h
    rw [List.flatMap_eq_nil_iff] at h
    apply h
    rw [mem_setUnion]
    exact Or.inl (mem_keys_of_lookupInput_eq_some t nm v htv)
  unfold inputDiff at hdiff
  rw [htv, hov] at hdiff
  cases v <;> cases w <;> simp_all [encodeValue, isNodeConnection]

theorem compare_empty_hash_eq (g og : ComfyWorkflowJson) (t o : ComfyNode)
    (hwt : NodeWf t) (hwo : NodeWf o)
    (h : compareNodeInputs g t og o = []) :
    hashNodeInputs g t = hashNodeInputs og o := by
  have hsymm := compareNodeInputs_empty_symm g og t o h
  have hkeys : ∀ nm, nm ∈ t.inputs.map Prod.fst ↔ nm ∈ o.inputs.map Prod.fst :=
    fun nm => ⟨compare_empty_keys_sub g og t o h nm,
      compare_empty_keys_sub og g o t hsymm nm⟩
  have hperm : (t.inputs.map Prod.fst).Perm (o.inputs.map Prod.fst) :=
    (List.perm_ext_iff_of_nodup hwt hwo).mpr hkeys
  unfold hashNodeInputs
  dsimp only
  have hsorted : List.insertionSort (· ≤ ·) (t.inputs.map Prod.fst)
      = List.insertionSort (· ≤ ·) (o.inputs.map Prod.fst) :=
    @List.eq_of_perm_of_sorted String (fun a b : String => a ≤ b) _ _ _
      (((List.perm_insertionSort _ _).trans hperm).trans
        (List.perm_insertionSort _ _).symm)
      (List.sorted_insertionSort _ _) (List.sorted_insertionSort _ _)
  rw [hsorted]
  congr 1
  apply List.map_congr_left
  intro k hk
  have hko : k ∈ o.inputs.map Prod.fst :=
    ((List.perm_insertionSort _ _).mem_iff).mp hk
  have hkt : k ∈ t.inputs.map Prod.fst := (hkeys k).mpr hko
  obtain ⟨v, hv⟩ : ∃ v, lookupInput t k = some v :=
    Option.isSome_iff_exists.mp ((lookupInput_isSome_iff t k).mpr hkt)
  obtain ⟨w, hw⟩ : ∃ w, lookupInput o k = some w :=
    Option.isSome_iff_exists.mp ((lookupInput_isSome_iff o k).mpr hko)
  rw [hv, hw]
  show k ++ ":" ++ encodeValue g v = k ++ ":" ++ encodeValue og w
  rw [compare_empty_encode_eq g og t o h k v w hv hw]

theorem findBestNodeMatching_empty_iff (g og : ComfyWorkflowJson)
    (tns ons : List (String × ComfyNode)) (hlen : tns.length = ons.length)
    (hwt : ∀ p ∈ tns, NodeWf p.2) (hwo : ∀ p ∈ ons, NodeWf p.2) :
    (findBestNodeMatching g tns og ons = [] ↔
      (tns.map (fun p => hashNodeInputs g p.2)).Perm
        (ons.map (fun p => hashNodeInputs og p.2))) := by
  unfold findBestNodeMatching
  dsimp only
  have hfst1 : (tns.map (fun p => (hashNodeInputs g p.2, p.2))).map Prod.fst
      = tns.map (fun p => hashNodeInputs g p.2) := by
    rw [List.map_map]
    rfl
  have hfst2 : (ons.map (fun p => (hashNodeInputs og p.2, p.2))).map Prod.fst
      = ons.map (fun p => hashNodeInputs og p.2) := by
    rw [List.map_map]
    rfl
  constructor
  · intro h
    rcases hgm : greedyMatch (tns.map (fun p => (hashNodeInputs g p.2, p.2)))
        (ons.map (fun p => (hashNodeInputs og p.2, p.2))) with ⟨ut, uo⟩
    rw [hgm] at h
    have hlen2 := greedyMatch_length
      (tns.map (fun p => (hashNodeInputs g p.2, p.2)))
      (ons.map (fun p => (hashNodeInputs og p.2, p.2)))
    rw [hgm] at hlen2
    dsimp only at hlen2
    cases ut with
    | nil =>
      cases uo with
      | nil =>
        have hperm := greedyMatch_perm_of_full _ _ hgm
        rw [hfst1, hfst2] at hperm
        exact hperm
      | cons o os =>
        exfalso
        simp only [List.length_map, List.length_nil, List.length_cons] at hlen2
        omega
    | cons t ts1 =>
      cases uo with
      | nil =>
        exfalso
        simp only [List.length_map, List.length_nil, List.length_cons] at hlen2
        omega
      | cons o os =>
        exfalso
        have htu : t ∈ (greedyMatch (tns.map (fun p => (hashNodeInputs g p.2, p.2)))
            (ons.map (fun p => (hashNodeInputs og p.2, p.2)))).1 := by
          rw [hgm]
          exact List.mem_cons_self _ _
        have hou : o ∈ (greedyMatch (tns.map (fun p => (hashNodeInputs g p.2, p.2)))
            (ons.map (fun p => (hashNodeInputs og p.2, p.2)))).2 := by
          rw [hgm]
          exact List.mem_cons_self _ _
        have htm := (greedyMatch_unmatched_sub _ _).1 t htu
        have hom := (greedyMatch_unmatched_sub _ _).2 o hou
        rcases List.mem_map.mp htm with ⟨p, hp, hpt⟩
        rcases List.mem_map.mp hom with ⟨q, hq, hqo⟩
        have hwtp : NodeWf t.2 := by
          rw [← hpt]
          exact hwt p hp
        have hwoq : NodeWf o.2 := by
          rw [← hqo]
          exact hwo q hq
        have ht1 : t.1 = hashNodeInputs g t.2 := by rw [← hpt]
        have ho1 : o.1 = hashNodeInputs og o.2 := by rw [← hqo]
        have hhash := compare_empty_hash_eq g og t.2 o.2 hwtp hwoq h
        exact greedyMatch_no_cross_hash _ _ t htu o hou (by rw [ht1, ho1, hhash])
  · intro hperm
    have hperm2 : ((tns.map (fun p => (hashNodeInputs g p.2, p.2))).map Prod.fst).Perm
        ((ons.map (fun p => (hashNodeInputs og p.2, p.2))).map Prod.fst) := by
      rw [hfst1, hfst2]
      exact hperm
    rw [greedyMatch_full_of_perm _ _ hperm2]

theorem diffsForClass_empty_symm (a b : ComfyWorkflowJson)
    (hwa : WorkflowWf a) (hwb : WorkflowWf b) (ct : String)
    (h : diffsForClass a b ct = []) : diffsForClass b a ct = [] := by
  have hlen : (nodesOfType a ct).length = (nodesOfType b ct).length := by
    by_contra hne
    unfold diffsForClass at h
    dsimp only at h
    rw [if_pos hne] at h
    cases h
  have hwfa : ∀ p ∈ nodesOfType a ct, NodeWf p.2 := fun p hp =>
    hwa.2 p (List.mem_of_mem_filter hp)
  have hwfb : ∀ p ∈ nodesOfType b ct, NodeWf p.2 := fun p hp =>
    hwb.2 p (List.mem_of_mem_filter hp)
  unfold diffsForClass at h ⊢
  dsimp only at h ⊢
  rw [if_neg (by omega)] at h
  rw [if_neg (by omega)]
  revert h hlen hwfa hwfb
  generalize nodesOfType a ct = tns
  generalize nodesOfType b ct = ons
  intro h hlen hwfa hwfb
  rcases tns with _ | ⟨t1, tr⟩ <;> rcases ons with _ | ⟨o1, orr⟩
  · rfl
  · simp at hlen
  · simp at hlen
  · rcases tr with _ | ⟨t2, tr2⟩ <;> rcases orr with _ | ⟨o2, orr2⟩
    · have hcmp : compareNodeInputs a t1.2 b o1.2 = [] :=
        List.map_eq_nil_iff.mp h
      show List.map (withClassType ct) (compareNodeInputs b o1.2 a t1.2) = []
      rw [compareNodeInputs_empty_symm a b t1.2 o1.2 hcmp]
      rfl
    · simp only [List.length_cons, List.length_nil] at hlen
      omega
    · simp only [List.length_cons, List.length_nil] at hlen
      omega
    · have hfbm : findBestNodeMatching a (t1 :: t2 :: tr2) b (o1 :: o2 :: orr2) = [] :=
        List.map_eq_nil_iff.mp h
      have hlen' : (t1 :: t2 :: tr2).length = (o1 :: o2 :: orr2).length := hlen
      have hperm := (findBestNodeMatching_empty_iff a b _ _ hlen' hwfa hwfb).mp hfbm
      have hfbm2 := (findBestNodeMatching_empty_iff b a _ _ hlen'.symm hwfb hwfa).mpr
        hperm.symm
      show List.map (withClassType ct)
        (findBestNodeMatching b (o1 :: o2 :: orr2) a (t1 :: t2 :: tr2)) = []
      rw [hfbm2]
      rfl

theorem getStructuralDiff_empty_iff_all (a b : ComfyWorkflowJson) :
    getStructuralDiff a b = [] ↔ ∀ ct, diffsForClass a b ct = [] := by
  unfold getStructuralDiff
  rw [List.flatMap_eq_nil_iff]
  constructor
  · intro h ct
    by_cases hmem : ct ∈ setUnion (classTypesOf a) (classTypesOf b)
    · exact h ct hmem
    · rw [mem_setUnion] at hmem
      push_neg at hmem
      obtain ⟨h1, h2⟩ := hmem
      rw [mem_classTypesOf_iff, not_not] at h1
      rw [mem_classTypesOf_iff, not_not] at h2
      unfold diffsForClass
      dsimp only
      rw [h1, h2]
      rw [if_neg (fun hc => hc rfl)]
  · intro h ct _
    exact h ct

/- ===== Claim theorem: emptiness of the diff is symmetric ===== -/

/-- C6: for well-formed graphs A and B, getStructuralDiff(A, B) is empty
    exactly when getStructuralDiff(B, A) is, so the Boolean equivalence
    verdict is direction-independent even though individual records'
    expected/actual framing is not. -/
theorem diff_emptiness_symmetric (a b : ComfyWorkflowJson)
    (hwa : WorkflowWf a) (hwb : WorkflowWf b) :
    (getStructuralDiff a b = [] ↔ getStructuralDiff b a = []) ∧
      isStructurallyEquivalentTo a b = isStructurallyEquivalentTo b a := by
  have hmain : ∀ x y, WorkflowWf x → WorkflowWf y →
      getStructuralDiff x y = [] → getStructuralDiff y x = [] := by
    intro x y hwx hwy h
    rw [getStructuralDiff_empty_iff_all] at h ⊢
    intro ct
    exact diffsForClass_empty_symm x y hwx hwy ct (h ct)
  have hiff : getStructuralDiff a b = [] ↔ getStructuralDiff b a = [] :=
    ⟨hmain a b hwa hwb, hmain b a hwb hwa⟩
  refine ⟨hiff, ?_⟩
  unfold isStructurallyEquivalentTo
  by_cases hab : getStructuralDiff a b = []
  · rw [hab, hiff.mp hab]
  · have hba : getStructuralDiff b a ≠ [] := fun hc => hab (hiff.mpr hc)
    have l1 : ((getStructuralDiff a b).length == 0) = false := by
      rw [beq_eq_false_iff_ne]
      intro hc
      exact hab (List.length_eq_zero.mp hc)
    have l2 : ((getStructuralDiff b a).length == 0) = false := by
      rw [beq_eq_false_iff_ne]
      intro hc
      exact hba (List.length_eq_zero.mp hc)
    rw [l1, l2]

/-- Witness for C6: two well-formed graphs that differ (one extra class). -/
theorem diff_emptiness_symmetric_witness :
    WorkflowWf [("1", ⟨[("x", InputValue.num 1)], "K"⟩)] ∧
      WorkflowWf [("2", ⟨[("x", InputValue.num 1)], "K"⟩), ("3", ⟨[], "V"⟩)] ∧
      ((getStructuralDiff [("1", ⟨[("x", InputValue.num 1)], "K"⟩)]
          [("2", ⟨[("x", InputValue.num 1)], "K"⟩), ("3", ⟨[], "V"⟩)] = [] ↔
        getStructuralDiff
          [("2", ⟨[("x", InputValue.num 1)], "K"⟩), ("3", ⟨[], "V"⟩)]
          [("1", ⟨[("x", InputValue.num 1)], "K"⟩)] = []) ∧
        isStructurallyEquivalentTo [("1", ⟨[("x", InputValue.num 1)], "K"⟩)]
            [("2", ⟨[("x", InputValue.num 1)], "K"⟩), ("3", ⟨[], "V"⟩)] =
          isStructurallyEquivalentTo
            [("2", ⟨[("x", InputValue.num 1)], "K"⟩), ("3", ⟨[], "V"⟩)]
            [("1", ⟨[("x", InputValue.num 1)], "K"⟩)]) :=
  ⟨by decide, by decide, diff_emptiness_symmetric _ _ (by decide) (by decide)⟩
